import Mathlib

set_option maxHeartbeats 1000000

/-!
Shallow embedding of the pixel-brain repository core:

* the hybrid document+vector `Database` of `src/pixelbrain/database.py`,
* its legacy variant `src/python/pixel_brain/database.py` (namespace `Legacy`),
* the batched `DataLoader` of `src/pixelbrain/data_loader.py`,
* the `is_person` write of `src/pixelbrain/modules/hogs_people_detector.py`.

Python exceptions become `Except` results; for mutating database operations
the error also carries the database state at raise time, so that "nothing was
written before the failure" is an expressible (and proved) fact.  Machine
floats (`np.ndarray` entries) are modelled as rationals.
-/

/-- Python-level failure signals raised by the embedded code paths.
The `ValueError`s of the source are split by meaning, following the spec's
taxonomy: a missing id / field / index is `notFound`, a reserved name or
reserved value misuse is `invalidArgument`; the `assert False` guarding the
remote vector store is `unimplemented`; a failed `assert` is
`assertionFailed`; calling `.find` on a non-string is `attributeError`;
`RuntimeError` from a missing chroma collection is `runtimeError`; the
loader's end-of-stream is `stopIteration`. -/
inductive PyError where
  | notFound
  | invalidArgument
  | unimplemented
  | runtimeError
  | assertionFailed
  | attributeError
  | stopIteration
deriving DecidableEq

/-- A field value: a scalar (string, number, boolean) or an embedding vector
(`np.ndarray`, modelled as a list of rationals). -/
inductive Value where
  | str (s : String)
  | num (q : Rat)
  | bool (b : Bool)
  | vec (v : List Rat)
deriving DecidableEq

/-- `isinstance(field_value, np.ndarray)`. -/
def Value.isVec : Value → Bool
  | .vec _ => true
  | _ => false

/-- Termination measure for `store_field`: the recursive sentinel write passes
a string, strictly smaller than the vector that triggered it. -/
def Value.rank : Value → Nat
  | .vec _ => 1
  | _ => 0

/-- `image_path` is always written as a string by `add_image`; this coercion is
used where the source reads it back into a path slot. -/
def Value.asString : Value → String
  | .str s => s
  | _ => ""

/-- A document of the Mongo `images` collection: the `_id` plus the named
fields (`image_path` lives among the fields). -/
structure Doc where
  id : String
  fields : List (String × Value)
deriving DecidableEq

/-- First-match association lookup (Python dict access / Mongo field read). -/
def lookupField : List (String × Value) → String → Option Value
  | [], _ => none
  | (k, v) :: rest, key => if k = key then some v else lookupField rest key

/-- Python `field_name in image_doc` / `image_doc[field_name]`: a fetched
Mongo document exposes `_id` alongside the stored fields. -/
def docLookup (d : Doc) (field : String) : Option Value :=
  if field = "_id" then some (.str d.id) else lookupField d.fields field

/-- Mongo `$set` on one document: overwrite the field if present, else append. -/
def setField : List (String × Value) → String → Value → List (String × Value)
  | [], key, v => [(key, v)]
  | (k, w) :: rest, key, v =>
    if k = key then (key, v) :: rest else (k, w) :: setField rest key v

/-- `update_one({'_id': id}, {'$set': {key: v}}, upsert=True)`: update the
first document carrying this `_id`, inserting a fresh one if none exists. -/
def updateImages : List Doc → String → String → Value → List Doc
  | [], id, key, v => [⟨id, setField [] key v⟩]
  | d :: ds, id, key, v =>
    if d.id = id then { d with fields := setField d.fields key v } :: ds
    else d :: updateImages ds id key v

/-- `sub` is an initial segment of `l`. -/
def charsLead : List Char → List Char → Bool
  | [], _ => true
  | _ :: _, [] => false
  | a :: as, b :: bs => a == b && charsLead as bs

/-- `sub` occurs somewhere in `l`. -/
def charsHave (sub : List Char) : List Char → Bool
  | [] => charsLead sub []
  | c :: cs => charsLead sub (c :: cs) || charsHave sub cs

/-- Substring containment on strings: Python `s.find(sub) != -1`. -/
def strHasSub (s sub : String) : Bool := charsHave sub.toList s.toList

/-- Sentinel marker written to the document store in place of a vector. -/
def IN_VECTOR_STORE_STR : String := "IN_VECTOR_STORE"

namespace Database

/-- State of the hybrid database: the Mongo `images` collection, the vector
store (collection name ↦ (image id ↦ embedding)), whether the vector store is
a remote Mongo client (`mongo_vector_key` was given) or the local chroma
client, and the local chroma path that sentinels record. -/
structure DBState where
  dbId : String
  images : List Doc
  vector : List (String × List (String × List Rat))
  remoteVector : Bool
  localVectorPath : String
deriving DecidableEq

/-- On error, the state at raise time is carried alongside the signal. -/
abbrev DbResult := Except (PyError × DBState) DBState

/-- `find_one({'_id': image_id})`. -/
def find_image (db : DBState) (image_id : String) : Option Doc :=
  db.images.find? (fun d => d.id == image_id)

/-- `add_image`: silently return when the id is already registered, else
upsert a record holding only `image_path`. -/
def add_image (db : DBState) (image_id image_path : String) : DBState :=
  if (find_image db image_id).isSome then db
  else { db with images := updateImages db.images image_id "image_path" (.str image_path) }

/-- Collection lookup by fully-qualified name (`get_collection`). -/
def getCollection (db : DBState) (fqn : String) : Option (List (String × List Rat)) :=
  (db.vector.find? (fun c => c.1 == fqn)).map (fun c => c.2)

/-- chroma `upsert` inside one collection: replace the entry with this id, or
append it. -/
def upsertEntry : List (String × List Rat) → String → List Rat → List (String × List Rat)
  | [], image_id, emb => [(image_id, emb)]
  | e :: es, image_id, emb =>
    if e.1 = image_id then (image_id, emb) :: es else e :: upsertEntry es image_id emb

/-- `get_or_create_collection` followed by `upsert`. -/
def upsertVector : List (String × List (String × List Rat)) → String → String → List Rat →
    List (String × List (String × List Rat))
  | [], fqn, image_id, emb => [(fqn, upsertEntry [] image_id emb)]
  | c :: cs, fqn, image_id, emb =>
    if c.1 = fqn then (fqn, upsertEntry c.2 image_id emb) :: cs
    else c :: upsertVector cs fqn image_id emb

/-- `store_field`: reject unregistered ids; vector values go (after the
reserved `-` check) through `_store_vector`, which on the local backing
upserts into the `{db}-{name}` index and then re-enters `store_field` to write
the sentinel scalar `IN_VECTOR_STORE:<local path>`; on the remote backing
`_store_vector` is `assert False` (unimplemented).  Scalar values go straight
to the document store. -/
def store_field (db : DBState) (image_id field_name : String) (field_value : Value) :
    DbResult :=
  if (find_image db image_id).isNone then .error (.notFound, db)
  else
    match field_value with
    | .vec emb =>
      if strHasSub field_name "-" then .error (.invalidArgument, db)
      else if db.remoteVector then .error (.unimplemented, db)
      else
        let fqn := db.dbId ++ "-" ++ field_name
        let db1 := { db with vector := upsertVector db.vector fqn image_id emb }
        store_field db1 image_id field_name
          (.str (IN_VECTOR_STORE_STR ++ ":" ++ db.localVectorPath))
    | v => .ok { db with images := updateImages db.images image_id field_name v }
termination_by field_value.rank
decreasing_by simp [Value.rank]

/-- `get_field`: read the document field; a stored string matching the
sentinel marker redirects to the vector index `{db}-{name}` (requiring exactly
one embedding for the id); calling `.find` on a non-string stored value raises
`AttributeError`. -/
def get_field (db : DBState) (image_id field_name : String) : Except PyError Value :=
  match find_image db image_id with
  | none => .error .notFound
  | some image_doc =>
    match docLookup image_doc field_name with
    | none => .error .notFound
    | some fv =>
      match fv with
      | .str s =>
        if strHasSub s IN_VECTOR_STORE_STR then
          if db.remoteVector then .error .invalidArgument
          else
            match getCollection db (db.dbId ++ "-" ++ field_name) with
            | none => .error .runtimeError
            | some entries =>
              match entries.find? (fun e => e.1 == image_id) with
              | none => .error .assertionFailed
              | some e => .ok (.vec e.2)
        else .ok (.str s)
      | _ => .error .attributeError

/-- The Mongo query predicates this codebase issues. -/
inductive MongoPred where
  | fieldAbsent (field : String)
  | fieldNe (field : String) (v : Value)
deriving DecidableEq

/-- Mongo matching semantics: `{f: {'$exists': False}}` matches documents
missing the field; `{f: {'$ne': v}}` matches documents whose field differs
from `v`, including documents missing the field entirely. -/
def mongoMatch (p : MongoPred) (d : Doc) : Bool :=
  match p with
  | .fieldAbsent f => (docLookup d f).isNone
  | .fieldNe f v => decide (docLookup d f ≠ some v)

/-- `delete_many`: drop every matching document from the collection. -/
def delete_many (db : DBState) (p : MongoPred) : DBState :=
  { db with images := db.images.filter (fun d => !(mongoMatch p d)) }

/-- Destructive `filter`: with no value, delete the records missing the field;
with a value, delete the records whose field is `$ne` to it. -/
def filter (db : DBState) (field_name : String) (field_value : Option Value) : DBState :=
  match field_value with
  | none => delete_many db (.fieldAbsent field_name)
  | some v => delete_many db (.fieldNe field_name v)

/-- `find_images_with_value`: existence query, or equality query. -/
def find_images_with_value (db : DBState) (field_name : String) (value : Option Value) :
    List Doc :=
  match value with
  | none => db.images.filter (fun d => (docLookup d field_name).isSome)
  | some v => db.images.filter (fun d => decide (docLookup d field_name = some v))

/-- The per-field replay loop inside `clone_row`. -/
def cloneFields (db : DBState) (target : String) : List (String × Value) → DbResult
  | [] => .ok db
  | (k, v) :: rest =>
    if k = "_id" || k = "image_path" then cloneFields db target rest
    else
      match store_field db target k v with
      | .error e => .error e
      | .ok db1 => cloneFields db1 target rest

/-- `clone_row`: fetch both documents (raising when absent) and replay every
field of the source document, with its stored value, through `store_field`
(`source_image.items()` yields `_id` first, then the fields). -/
def clone_row (db : DBState) (source_image_id target_image_id : String) : DbResult :=
  match find_image db source_image_id with
  | none => .error (.notFound, db)
  | some source_image =>
    match find_image db target_image_id with
    | none => .error (.notFound, db)
    | some _ =>
      cloneFields db target_image_id (("_id", .str source_image.id) :: source_image.fields)

/-- Squared L2 distance, chroma's default metric. -/
def sqDist (a b : List Rat) : Rat :=
  (List.zipWith (fun x y => (x - y) * (x - y)) a b).foldl (fun acc z => acc + z) 0

/-- Insertion into a distance-ascending ranking. -/
def insertByDist (x : String × Rat) : List (String × Rat) → List (String × Rat)
  | [] => [x]
  | y :: ys => if x.2 ≤ y.2 then x :: y :: ys else y :: insertByDist x ys

/-- Distance-ascending insertion sort. -/
def sortByDist : List (String × Rat) → List (String × Rat)
  | [] => []
  | x :: xs => insertByDist x (sortByDist xs)

/-- `_query_vector`: remote backing is the unimplemented `assert False`;
locally, exact nearest-neighbour search over the collection (missing
collection raises `RuntimeError`), joined back to document metadata. -/
def query_vector (db : DBState) (index_fqn : String) (query : List Rat)
    (n_results : Nat) : Except PyError (List (Option Doc) × List Rat) :=
  if db.remoteVector then .error .unimplemented
  else
    match getCollection db index_fqn with
    | none => .error .runtimeError
    | some entries =>
      let ranked := sortByDist (entries.map (fun e => (e.1, sqDist e.2 query)))
      let top := ranked.take n_results
      .ok (top.map (fun r => find_image db r.1), top.map (fun r => r.2))

/-- `query_vector_field`: query the index `{db}-{name}`. -/
def query_vector_field (db : DBState) (field_name : String) (query : List Rat)
    (n_results : Nat) : Except PyError (List (Option Doc) × List Rat) :=
  query_vector db (db.dbId ++ "-" ++ field_name) query n_results

end Database

namespace Legacy

/-- Legacy variant (`src/python/pixel_brain/database.py`): the vector store is
`none` exactly when a remote `mongo_key` was given (its constructor then sets
`_vector_db = None`), else it is a local chroma client. -/
structure DBState where
  dbId : String
  images : List Doc
  vector : Option (List (String × List (String × List Rat)))
deriving DecidableEq

/-- On error, the state at raise time is carried alongside the signal. -/
abbrev DbResult := Except (PyError × DBState) DBState

/-- `find_one({'_id': image_id})`. -/
def find_image (db : DBState) (image_id : String) : Option Doc :=
  db.images.find? (fun d => d.id == image_id)

/-- Legacy `add_image`: a duplicate id is a hard `ValueError`. -/
def add_image (db : DBState) (image_id image_path : String) : DbResult :=
  if (find_image db image_id).isSome then .error (.invalidArgument, db)
  else .ok { db with images := updateImages db.images image_id "image_path" (.str image_path) }

/-- Legacy `store_field`: the vector route is guarded by
`isinstance(field_value, np.ndarray) and self._vector_db is not None`, so with
the remote backing (`_vector_db is None`) an ndarray falls through to the
scalar document write; the guard makes the nested
`raise RuntimeError("To store an embedding, vector store must be initialized")`
unreachable.  The legacy `_store_vector` only upserts the embedding — it
writes no sentinel into the document. -/
def store_field (db : DBState) (image_id field_name : String) (field_value : Value) :
    DbResult :=
  if (find_image db image_id).isNone then .error (.notFound, db)
  else
    match field_value, db.vector with
    | .vec emb, some vdb =>
      if strHasSub field_name "-" then .error (.invalidArgument, db)
      else
        let vdb1 := Database.upsertVector vdb (db.dbId ++ "-" ++ field_name) image_id emb
        .ok { db with vector := some vdb1 }
    | v, _ => .ok { db with images := updateImages db.images image_id field_name v }

end Legacy

/-- External environment of the loader: enumeration of a source (filesystem
glob with the image-extension whitelist, or the S3 listing; arguments are the
source path and the recursive flag) and `os.path.realpath`. -/
structure Env where
  listSource : String → Bool → List String
  realpath : String → String

/-- A loaded image: decoded pixels (`read_image`) or raw bytes (`read_file`),
tagged by origin path.  The S3 branch downloads to a temporary directory and
reads the same way; the decoded-vs-raw outcome is identical. -/
inductive Img where
  | decoded (path : String)
  | raw (path : String)
deriving DecidableEq

/-- Mutable state of a `DataLoader`. -/
structure DataLoader where
  imagesPath : String
  db : Database.DBState
  batchSize : Nat
  decodeImages : Bool
  loadImages : Bool
  isRecursive : Bool
  imagePaths : List String
  isFirstIteration : Bool
deriving DecidableEq

namespace DataLoader

/-- `__init__`: enumerate the source eagerly and set the first-iteration
flag.  (`batch_size`, `decode_images`, `load_images`, `is_recursive` default
to `1`, `True`, `True`, `True` at call sites.) -/
def init (env : Env) (images_path : String) (database : Database.DBState)
    (batch_size : Nat) (decode_images load_images is_recursive : Bool) : DataLoader :=
  { imagesPath := images_path
    db := database
    batchSize := batch_size
    decodeImages := decode_images
    loadImages := load_images
    isRecursive := is_recursive
    imagePaths := env.listSource images_path is_recursive
    isFirstIteration := true }

/-- `_load_image` / `_read_image`. -/
def loadOne (decode : Bool) (path : String) : Img :=
  if decode then .decoded path else .raw path

/-- Result of the batch-accumulation loop inside `__next__`. -/
structure BatchResult where
  ids : List String
  images : List (Option Img)
  remaining : List String
  db : Database.DBState

/-- The `for _ in range(batch_size)` loop of `__next__`: pop a locator from
the front, resolve it, register the id as a side effect, load the image (or
`None` when `load_images` is off), and break early once the pending list is
empty. -/
def takeBatch (env : Env) (loadImages decodeImages : Bool) :
    Nat → Database.DBState → List String → BatchResult
  | 0, db, paths => ⟨[], [], paths, db⟩
  | _ + 1, db, [] => ⟨[], [], [], db⟩
  | k + 1, db, p :: rest =>
    let image_path := env.realpath p
    let db1 := Database.add_image db image_path image_path
    let image := if loadImages then some (loadOne decodeImages image_path) else none
    let r := takeBatch env loadImages decodeImages k db1 rest
    ⟨image_path :: r.ids, image :: r.images, r.remaining, r.db⟩

/-- `__next__`: on the first iteration re-enumerate the source, overriding the
pending list; raise `StopIteration` only when no locators remain and no
partial batch accumulates; otherwise return up to `batch_size` pairs. -/
def next (env : Env) (st : DataLoader) :
    Except PyError (List String × List (Option Img) × DataLoader) :=
  let st1 :=
    if st.isFirstIteration then
      { st with isFirstIteration := false
                imagePaths := env.listSource st.imagesPath st.isRecursive }
    else st
  if st1.batchSize != 0 && st1.imagePaths.isEmpty then .error .stopIteration
  else
    let r := takeBatch env st1.loadImages st1.decodeImages st1.batchSize st1.db st1.imagePaths
    .ok (r.ids, r.images, { st1 with imagePaths := r.remaining, db := r.db })

/-- `__len__`: floor division of the pending count by the batch size (the
Python `//`; a zero batch size would raise there and is never used). -/
def length (st : DataLoader) : Nat := st.imagePaths.length / st.batchSize

/-- `clone`: re-construct from the original source path, database and batch
size; `decode_images`, `load_images` and `is_recursive` are not forwarded and
revert to their defaults (`True`). -/
def clone (env : Env) (st : DataLoader) : DataLoader :=
  init env st.imagesPath st.db st.batchSize true true true

/-- `set_batch_size`. -/
def set_batch_size (st : DataLoader) (batch_size : Nat) : DataLoader :=
  { st with batchSize := batch_size }

/-- `_get_image_from_path`: resolve the locator and look its record up by
`image_path`; no match is a `ValueError`, more than one fails the
single-match assertion. -/
def getImageFromPath (env : Env) (st : DataLoader) (image_path : String) :
    Except PyError Doc :=
  let full := env.realpath image_path
  match Database.find_images_with_value st.db "image_path" (some (.str full)) with
  | [] => .error .notFound
  | [d] => .ok d
  | _ => .error .assertionFailed

/-- The accumulation loop of `DataLoader.filter`. -/
def filterGo (env : Env) (st : DataLoader) (field_name : String)
    (field_value : Option Value) : List String → List String →
    Except PyError (List String)
  | acc, [] => .ok acc.reverse
  | acc, p :: rest =>
    match getImageFromPath env st p with
    | .error e => .error e
    | .ok image_doc =>
      match docLookup image_doc field_name with
      | none => filterGo env st field_name field_value acc rest
      | some v =>
        match field_value with
        | none => filterGo env st field_name field_value (p :: acc) rest
        | some fv =>
          if v = fv then filterGo env st field_name field_value (p :: acc) rest
          else filterGo env st field_name field_value acc rest

/-- `filter`: narrow the pending list to locators whose registered record
carries the field (and value, when given); any pending locator without a
registered record raises. -/
def filter (env : Env) (st : DataLoader) (field_name : String)
    (field_value : Option Value) : Except PyError DataLoader :=
  match filterGo env st field_name field_value [] st.imagePaths with
  | .error e => .error e
  | .ok ps => .ok { st with imagePaths := ps }

/-- The id-collection comprehension of `custom_filter` (raises on any pending
locator without a registered record). -/
def collectIds (env : Env) (st : DataLoader) : List String → Except PyError (List String)
  | [] => .ok []
  | p :: rest =>
    match getImageFromPath env st p with
    | .error e => .error e
    | .ok image_doc =>
      match collectIds env st rest with
      | .error e => .error e
      | .ok ids => .ok (image_doc.id :: ids)

/-- The path-rebuild comprehension of `custom_filter`:
`find_image(id)['image_path']` (a missing record subscripts `None`, a missing
field is a key error). -/
def idsToPaths (db : Database.DBState) : List String → Except PyError (List String)
  | [] => .ok []
  | i :: rest =>
    match Database.find_image db i with
    | none => .error .attributeError
    | some d =>
      match docLookup d "image_path" with
      | none => .error .notFound
      | some v =>
        match idsToPaths db rest with
        | .error e => .error e
        | .ok ps => .ok (v.asString :: ps)

/-- `custom_filter`: delegate id selection to the injected filter capability,
then rebuild the pending list from the database. -/
def custom_filter (env : Env) (st : DataLoader)
    (f : Database.DBState → List String → List String) : Except PyError DataLoader :=
  match collectIds env st st.imagePaths with
  | .error e => .error e
  | .ok image_ids =>
    match idsToPaths st.db (f st.db image_ids) with
    | .error e => .error e
    | .ok ps => .ok { st with imagePaths := ps }

end DataLoader

/-- `HogsPeopleDetectorModule._process`: for each image of the batch, store
the boolean `is_person` verdict (`detect` abstracts
`cv2.HOGDescriptor.detectMultiScale`, returning the number of boxes). -/
def hogsProcess (detect : Img → Nat) : Database.DBState → List (String × Img) →
    Database.DbResult
  | db, [] => .ok db
  | db, (image_id, image) :: rest =>
    match Database.store_field db image_id "is_person" (.bool (decide (0 < detect image))) with
    | .error e => .error e
    | .ok db1 => hogsProcess detect db1 rest

/-- Iterate `next` up to `fuel` times, recording the yielded batches and the
outcome of the last attempted call (an `.error` means that call raised). -/
def runNexts (env : Env) : Nat → DataLoader →
    List (List String × List (Option Img)) × Except PyError DataLoader
  | 0, st => ([], .ok st)
  | fuel + 1, st =>
    match DataLoader.next env st with
    | .error e => ([], .error e)
    | .ok (ids, images, st1) =>
      let r := runNexts env fuel st1
      ((ids, images) :: r.1, r.2)

/-- `ceil(n / b)` on naturals. -/
def ceilDiv (n b : Nat) : Nat := (n + b - 1) / b

/-- The refreshed loader state that the first `next()` call works on. -/
def refreshState (env : Env) (st : DataLoader) : DataLoader :=
  { st with isFirstIteration := false
            imagePaths := env.listSource st.imagesPath st.isRecursive }

/-- Value of the last occurrence of a key in an association list — the write
that wins when the list is replayed left to right. -/
def assocLast (fields : List (String × Value)) (key : String) : Option Value :=
  match fields with
  | [] => none
  | (k, v) :: rest =>
    match assocLast rest key with
    | some w => some w
    | none => if k = key then some v else none

/-! Concrete states used by witnesses and counterexamples. -/

/-- An environment over three locators, with `realpath` the identity. -/
def envW : Env := ⟨fun _ _ => ["a", "b", "c"], fun p => p⟩

/-- An environment over the single locator `"a"`. -/
def envA : Env := ⟨fun _ _ => ["a"], fun p => p⟩

/-- An empty local database. -/
def dbEmpty : Database.DBState :=
  { dbId := "db", images := [], vector := [], remoteVector := false,
    localVectorPath := "/tmp/chroma" }

/-- A local database with one registered image. -/
def dbOne : Database.DBState :=
  { dbId := "db", images := [⟨"img1", [("image_path", .str "/a")]⟩],
    vector := [], remoteVector := false, localVectorPath := "/tmp/chroma" }

/-- A local database whose single record's `image_path` is the locator `"a"`
itself (so the loader's path lookup succeeds under `envA`). -/
def dbA : Database.DBState :=
  { dbId := "db", images := [⟨"a", [("image_path", .str "a")]⟩],
    vector := [], remoteVector := false, localVectorPath := "/tmp/chroma" }

/-- A database holding a source image with a stored vector field `emb` (its
document slot is the sentinel, the embedding lives in index `db-emb`) and a
registered target image. -/
def cxDb : Database.DBState :=
  { dbId := "db",
    images := [⟨"src", [("image_path", .str "/s"),
                        ("emb", .str "IN_VECTOR_STORE:/tmp/chroma")]⟩,
               ⟨"dst", [("image_path", .str "/d")]⟩],
    vector := [("db-emb", [("src", [1])])],
    remoteVector := false, localVectorPath := "/tmp/chroma" }

/-- A legacy database configured with a remote document store (`mongo_key`
given), hence `_vector_db = None`. -/
def c8ldb : Legacy.DBState :=
  { dbId := "db", images := [⟨"img1", [("image_path", .str "/a")]⟩], vector := none }

/-- A current-variant database configured with a remote vector store
(`mongo_vector_key` given). -/
def c8rdb : Database.DBState :=
  { dbId := "db", images := [⟨"img1", [("image_path", .str "/a")]⟩],
    vector := [], remoteVector := true, localVectorPath := "/tmp/chroma" }

/-- A database with one registered image `i1` and nothing else. -/
def w9db : Database.DBState :=
  { dbId := "db", images := [⟨"i1", [("image_path", .str "/i1")]⟩],
    vector := [], remoteVector := false, localVectorPath := "/tmp/chroma" }

/-- `w9db` after the people detector stored `is_person = True` on `i1`. -/
def w9db' : Database.DBState :=
  { w9db with images := [⟨"i1", [("image_path", .str "/i1"), ("is_person", .bool true)]⟩] }

/-- A legacy database with a local vector store and no images. -/
def ldbEmpty : Legacy.DBState := { dbId := "db", images := [], vector := some [] }

/-- A fresh loader over `envW`'s three locators with batch size 2. -/
def stW : DataLoader := DataLoader.init envW "imgs" dbEmpty 2 true true true

/-- A loader constructed with `decode_images=False`, `load_images=False`,
`is_recursive=False`. -/
def st6 : DataLoader := DataLoader.init envW "imgs" dbEmpty 3 false false false

/-- A loader over `envA` whose single locator is registered in `dbA`. -/
def stA : DataLoader := DataLoader.init envA "imgs" dbA 1 false false false

/-- A fresh loader over `envA` backed by an empty database: its pending
locator `"a"` has no registered record. -/
def stNoReg : DataLoader := DataLoader.init envA "imgs" dbEmpty 1 true true true

/-! Helper lemmas about the embedded operations. -/

/-- Unfolding of `store_field` on a scalar value: existence check, then a
plain document write. -/
theorem store_field_scalar (db : Database.DBState) (image_id field_name : String)
    (v : Value) (hv : v.isVec = false) :
    Database.store_field db image_id field_name v =
      if (Database.find_image db image_id).isNone then .error (.notFound, db)
      else .ok { db with images := updateImages db.images image_id field_name v } := by
  cases v
  · simp [Database.store_field]
  · simp [Database.store_field]
  · simp [Database.store_field]
  · simp [Value.isVec] at hv

/-- Unfolding of `store_field` on a vector value: existence check, reserved
`-` check, remote-backing check, then the index upsert followed by the
sentinel write. -/
theorem store_field_vec (db : Database.DBState) (image_id field_name : String)
    (emb : List Rat) :
    Database.store_field db image_id field_name (.vec emb) =
      if (Database.find_image db image_id).isNone then .error (.notFound, db)
      else if strHasSub field_name "-" then .error (.invalidArgument, db)
      else if db.remoteVector then .error (.unimplemented, db)
      else
        Database.store_field { db with vector := Database.upsertVector db.vector (db.dbId ++ "-" ++ field_name) image_id emb } image_id field_name (.str (IN_VECTOR_STORE_STR ++ ":" ++ db.localVectorPath)) := by
  conv_lhs => rw [Database.store_field]

/-- After `updateImages` on an id that is present, `find?` returns the found
document with the field set. -/
theorem find_updateImages_found (images : List Doc) (id key : String) (v : Value)
    (d : Doc) (h : images.find? (fun x => x.id == id) = some d) :
    (updateImages images id key v).find? (fun x => x.id == id) =
      some { d with fields := setField d.fields key v } := by
  induction images with
  | nil => simp [List.find?] at h
  | cons a as ih =>
    by_cases ha : a.id = id
    · rw [List.find?_cons_of_pos _ (by simp [ha])] at h
      cases h
      simp [updateImages, ha, List.find?_cons_of_pos]
    · rw [List.find?_cons_of_neg _ (by simp [ha])] at h
      rw [updateImages]
      simp only [if_neg ha]
      rw [List.find?_cons_of_neg _ (by simp [ha])]
      exact ih h

/-- After `updateImages` on an absent id, `find?` returns the freshly
inserted document. -/
theorem find_updateImages_new (images : List Doc) (id key : String) (v : Value)
    (h : images.find? (fun x => x.id == id) = none) :
    (updateImages images id key v).find? (fun x => x.id == id) =
      some ⟨id, [(key, v)]⟩ := by
  induction images with
  | nil => simp [updateImages, setField, List.find?]
  | cons a as ih =>
    rw [List.find?_cons] at h
    by_cases ha : (a.id == id) = true
    · simp [ha] at h
    · simp only [ha, cond_false] at h
      have ha' : ¬ a.id = id := by simpa using ha
      rw [updateImages]
      simp only [if_neg ha']
      rw [List.find?_cons_of_neg _ (by simpa using ha)]
      exact ih h

/-- Looking up the key just set. -/
theorem lookupField_setField_self (fs : List (String × Value)) (key : String) (v : Value) :
    lookupField (setField fs key v) key = some v := by
  induction fs with
  | nil => simp [setField, lookupField]
  | cons kv rest ih =>
    by_cases hk : kv.1 = key
    · simp [setField, hk, lookupField]
    · cases kv
      simp_all [setField, hk, lookupField]

/-- Setting one key leaves the others' lookups unchanged. -/
theorem lookupField_setField_other (fs : List (String × Value)) (key key' : String)
    (v : Value) (h : key' ≠ key) :
    lookupField (setField fs key v) key' = lookupField fs key' := by
  induction fs with
  | nil =>
    have hne : key ≠ key' := fun hh => h hh.symm
    simp [setField, lookupField, hne]
  | cons kv rest ih =>
    cases kv with
    | mk k w =>
      by_cases hk : k = key
      · subst hk
        have hne : k ≠ key' := fun hh => h hh.symm
        simp [setField, lookupField, hne]
      · by_cases hk' : k = key'
        · simp [setField, lookupField, hk, hk', h]
        · simp [setField, lookupField, hk, hk', h, ih]

/-- A lookup over keys not containing `key` fails. -/
theorem lookupField_eq_none_of_not_mem (fs : List (String × Value)) (key : String)
    (h : key ∉ fs.map Prod.fst) :
    lookupField fs key = none := by
  induction fs with
  | nil => rfl
  | cons kv rest ih =>
    cases kv with
    | mk k w =>
      simp only [List.map_cons, List.mem_cons] at h
      push_neg at h
      have hne : k ≠ key := fun hh => h.1 hh.symm
      simp only [lookupField, if_neg hne]
      exact ih h.2

/-- `upsertEntry` leaves the entry for the id retrievable. -/
theorem upsertEntry_find_self (es : List (String × List Rat)) (id : String)
    (emb : List Rat) :
    (Database.upsertEntry es id emb).find? (fun e => e.1 == id) = some (id, emb) := by
  induction es with
  | nil => simp [Database.upsertEntry, List.find?]
  | cons e es ih =>
    by_cases he : e.1 = id
    · simp [Database.upsertEntry, he, List.find?_cons_of_pos]
    · rw [Database.upsertEntry]
      simp only [if_neg he]
      rw [List.find?_cons_of_neg _ (by simpa using he)]
      exact ih

/-- `upsertVector` leaves the collection, and inside it the id's embedding,
retrievable. -/
theorem upsertVector_find_self (vdb : List (String × List (String × List Rat)))
    (fqn id : String) (emb : List Rat) :
    ∃ es, (Database.upsertVector vdb fqn id emb).find? (fun c => c.1 == fqn) =
        some (fqn, es) ∧
      es.find? (fun e => e.1 == id) = some (id, emb) := by
  induction vdb with
  | nil =>
    exact ⟨Database.upsertEntry [] id emb, by simp [Database.upsertVector, List.find?],
      upsertEntry_find_self [] id emb⟩
  | cons c cs ih =>
    by_cases hc : c.1 = fqn
    · exact ⟨Database.upsertEntry c.2 id emb,
        by simp [Database.upsertVector, hc, List.find?_cons_of_pos],
        upsertEntry_find_self c.2 id emb⟩
    · obtain ⟨es, h1, h2⟩ := ih
      refine ⟨es, ?_, h2⟩
      rw [Database.upsertVector]
      simp only [if_neg hc]
      rw [List.find?_cons_of_neg _ (by simpa using hc)]
      exact h1

/-- A leading copy of `xs` is found at the front. -/
theorem charsLead_append (xs ys : List Char) : charsLead xs (xs ++ ys) = true := by
  induction xs with
  | nil => rfl
  | cons a as ih => simp [charsLead, ih]

/-- Occurrence follows from occurrence at the front. -/
theorem charsHave_of_lead (sub l : List Char) (h : charsLead sub l = true) :
    charsHave sub l = true := by
  cases l with
  | nil => simpa [charsHave] using h
  | cons c cs => simp [charsHave, h]

/-- A string has any of its own left factors as a substring:
`strHasSub (a ++ b ++ c) a`. -/
theorem strHasSub_left (a b c : String) : strHasSub (a ++ b ++ c) a = true := by
  have hdata : (a ++ b ++ c).toList = a.toList ++ (b.toList ++ c.toList) := by
    simp [String.toList, List.append_assoc]
  rw [strHasSub, hdata]
  exact charsHave_of_lead _ _ (charsLead_append _ _)

theorem isVec_str (s : String) : (Value.str s).isVec = false := rfl

theorem isVec_num (q : Rat) : (Value.num q).isVec = false := rfl

theorem isVec_bool (b : Bool) : (Value.bool b).isVec = false := rfl

/-- C2 (claim theorem).  For every registered image id and every vector field
name without the reserved separator, on the local vector backing,
`store_field(id, name, v)` with a vector succeeds and `get_field(id, name)`
returns exactly `v` (the embedding is stored exactly, hence certainly within
floating-point tolerance), while the document record holds only the sentinel
placeholder string `IN_VECTOR_STORE:<local path>` under that field name —
`get_field` detects the sentinel and redirects the read to the vector index
`{database_id}-{name}`. -/
theorem store_get_roundtrip (db : Database.DBState) (id name : String) (v : List Rat)
    (hreg : (Database.find_image db id).isSome = true)
    (hname : strHasSub name "-" = false)
    (hid : name ≠ "_id")
    (hlocal : db.remoteVector = false) :
    ∃ db', Database.store_field db id name (.vec v) = .ok db' ∧
      Database.get_field db' id name = .ok (.vec v) ∧
      ∃ d, Database.find_image db' id = some d ∧
        lookupField d.fields name =
          some (.str (IN_VECTOR_STORE_STR ++ ":" ++ db.localVectorPath)) := by
  obtain ⟨dbId, images, vector, rv, lvp⟩ := db
  replace hlocal : rv = false := hlocal
  subst hlocal
  obtain ⟨d0, hd0⟩ := Option.isSome_iff_exists.mp hreg
  have hnone : (Database.find_image ⟨dbId, images, vector, false, lvp⟩ id).isNone = false := by
    rw [hd0]; rfl
  have hd1 : Database.find_image ⟨dbId, images, Database.upsertVector vector (dbId ++ "-" ++ name) id v, false, lvp⟩ id = some d0 := hd0
  have hstore : Database.store_field ⟨dbId, images, vector, false, lvp⟩ id name (.vec v) =
      .ok ⟨dbId, updateImages images id name (.str (IN_VECTOR_STORE_STR ++ ":" ++ lvp)),
           Database.upsertVector vector (dbId ++ "-" ++ name) id v, false, lvp⟩ := by
    rw [store_field_vec]
    simp only [hnone, hname, Bool.false_eq_true, if_false]
    rw [store_field_scalar _ _ _ _ (isVec_str _)]
    simp only [hd1, Option.isNone_some, Bool.false_eq_true, if_false]
  have hdF : Database.find_image ⟨dbId, updateImages images id name (.str (IN_VECTOR_STORE_STR ++ ":" ++ lvp)), Database.upsertVector vector (dbId ++ "-" ++ name) id v, false, lvp⟩ id = some { d0 with fields := setField d0.fields name (.str (IN_VECTOR_STORE_STR ++ ":" ++ lvp)) } :=
    find_updateImages_found images id name _ d0 hd0
  obtain ⟨es, hes1, hes2⟩ := upsertVector_find_self vector (dbId ++ "-" ++ name) id v
  refine ⟨_, hstore, ?_, ?_⟩
  · rw [Database.get_field, hdF]
    simp only [docLookup, if_neg hid, lookupField_setField_self]
    rw [show strHasSub (IN_VECTOR_STORE_STR ++ ":" ++ lvp) IN_VECTOR_STORE_STR = true from strHasSub_left _ _ _]
    simp only [if_true]
    rw [show Database.getCollection ⟨dbId, updateImages images id name (.str (IN_VECTOR_STORE_STR ++ ":" ++ lvp)), Database.upsertVector vector (dbId ++ "-" ++ name) id v, false, lvp⟩ (dbId ++ "-" ++ name) = some es from by rw [Database.getCollection]; simp only [hes1]; rfl]
    simp only [hes2]
    rfl
  · exact ⟨_, hdF, lookupField_setField_self _ _ _⟩

/-- C2 witness: the round trip at a concrete database, id, field and vector. -/
theorem store_get_roundtrip_witness :
    ∃ db', Database.store_field dbOne "img1" "emb" (.vec [1, 2]) = .ok db' ∧
      Database.get_field db' "img1" "emb" = .ok (.vec [1, 2]) ∧
      ∃ d, Database.find_image db' "img1" = some d ∧
        lookupField d.fields "emb" =
          some (.str (IN_VECTOR_STORE_STR ++ ":" ++ dbOne.localVectorPath)) :=
  store_get_roundtrip dbOne "img1" "emb" [1, 2] (by decide) (by decide) (by decide) rfl

/-- C3 (claim theorem).  `store_field` with a vector value and a field name
containing the reserved `-` always fails with the invalid-argument
`ValueError`, and the error carries the unchanged database state (the check
precedes every backend write, so nothing is written to the document store or
the vector index); `store_field` on an unregistered id fails with the
not-found signal, again before any write. -/
theorem store_field_guards (db : Database.DBState) (id name : String)
    (v : List Rat) (value : Value) :
    ((Database.find_image db id).isSome = true → strHasSub name "-" = true →
      Database.store_field db id name (.vec v) = .error (.invalidArgument, db)) ∧
    ((Database.find_image db id).isNone = true →
      Database.store_field db id name value = .error (.notFound, db)) := by
  constructor
  · intro hs hn
    obtain ⟨d0, hd0⟩ := Option.isSome_iff_exists.mp hs
    have hnone : (Database.find_image db id).isNone = false := by rw [hd0]; rfl
    rw [store_field_vec, hnone, hn]
    simp
  · intro hn
    cases value with
    | vec emb => rw [store_field_vec, hn]; simp
    | str s => rw [store_field_scalar _ _ _ _ (isVec_str s), hn]; simp
    | num q => rw [store_field_scalar _ _ _ _ (isVec_num q), hn]; simp
    | bool b => rw [store_field_scalar _ _ _ _ (isVec_bool b), hn]; simp

/-- C3 witness: the hyphenated vector write and the unregistered-id write at
concrete inputs. -/
theorem store_field_guards_witness :
    Database.store_field dbOne "img1" "face-emb" (.vec [1]) =
      .error (.invalidArgument, dbOne) ∧
    Database.store_field dbOne "ghost" "f" (.str "x") = .error (.notFound, dbOne) :=
  ⟨(store_field_guards dbOne "img1" "face-emb" [1] (.str "x")).1 (by decide) (by decide),
   (store_field_guards dbOne "ghost" "f" [1] (.str "x")).2 (by decide)⟩

/-- C4 (claim theorem).  In the current variant, the first `add_image`
creates a record holding exactly the `image_path` field and re-registering the
same id is a silent no-op leaving the whole database unchanged; in the legacy
(strict) variant the first registration creates the same record and a second
registration raises a hard `ValueError`, leaving the state unchanged. -/
theorem add_image_policy (db : Database.DBState) (ldb : Legacy.DBState)
    (id p1 p2 : String)
    (h : Database.find_image db id = none)
    (hl : Legacy.find_image ldb id = none) :
    (Database.find_image (Database.add_image db id p1) id =
        some ⟨id, [("image_path", .str p1)]⟩ ∧
      Database.add_image (Database.add_image db id p1) id p2 =
        Database.add_image db id p1) ∧
    (∃ ldb1, Legacy.add_image ldb id p1 = .ok ldb1 ∧
      Legacy.find_image ldb1 id = some ⟨id, [("image_path", .str p1)]⟩ ∧
      Legacy.add_image ldb1 id p2 = .error (.invalidArgument, ldb1)) := by
  have hstep : Database.add_image db id p1 =
      { db with images := updateImages db.images id "image_path" (.str p1) } := by
    rw [Database.add_image, h]
    rfl
  have hfind : Database.find_image (Database.add_image db id p1) id =
      some ⟨id, [("image_path", .str p1)]⟩ := by
    rw [hstep]
    exact find_updateImages_new db.images id "image_path" (.str p1) h
  have hlstep : Legacy.add_image ldb id p1 =
      .ok { ldb with images := updateImages ldb.images id "image_path" (.str p1) } := by
    rw [Legacy.add_image, hl]
    rfl
  have hlfind : Legacy.find_image
      { ldb with images := updateImages ldb.images id "image_path" (.str p1) } id =
      some ⟨id, [("image_path", .str p1)]⟩ :=
    find_updateImages_new ldb.images id "image_path" (.str p1) hl
  refine ⟨⟨hfind, ?_⟩, ⟨_, hlstep, hlfind, ?_⟩⟩
  · rw [Database.add_image, hfind]
    rfl
  · rw [Legacy.add_image, hlfind]
    rfl

/-- C4 witness: both variants at a concrete id and paths. -/
theorem add_image_policy_witness :
    (Database.find_image (Database.add_image dbEmpty "a" "/p1") "a" =
        some ⟨"a", [("image_path", .str "/p1")]⟩ ∧
      Database.add_image (Database.add_image dbEmpty "a" "/p1") "a" "/p2" =
        Database.add_image dbEmpty "a" "/p1") ∧
    (∃ ldb1, Legacy.add_image ldbEmpty "a" "/p1" = .ok ldb1 ∧
      Legacy.find_image ldb1 "a" = some ⟨"a", [("image_path", .str "/p1")]⟩ ∧
      Legacy.add_image ldb1 "a" "/p2" = .error (.invalidArgument, ldb1)) :=
  add_image_policy dbEmpty ldbEmpty "a" "/p1" "/p2" rfl rfl

/-- C7 (claim theorem).  `Database.filter` with a value retains exactly the
records whose field equals the value — a record missing the field matches
Mongo's `$ne` and is deleted too — and with the value omitted retains exactly
the records carrying the field.  Membership is in the backing store itself:
the deletion is a permanent prune. -/
theorem database_filter_prunes (db : Database.DBState) (name : String) (v : Value)
    (d : Doc) :
    (d ∈ (Database.filter db name (some v)).images ↔
      d ∈ db.images ∧ docLookup d name = some v) ∧
    (d ∈ (Database.filter db name none).images ↔
      d ∈ db.images ∧ (docLookup d name).isSome = true) := by
  constructor
  · simp [Database.filter, Database.delete_many, Database.mongoMatch, List.mem_filter]
  · simp [Database.filter, Database.delete_many, Database.mongoMatch, List.mem_filter,
      Option.isSome_iff_ne_none, Option.isNone_iff_eq_none]

/-- C9 (claim theorem).  For every registered id and every stored field whose
value is not a string (for example the boolean `is_person` written by the
people detector), `get_field` raises instead of returning the value: the
sentinel detection calls the string method `.find` on the raw stored value. -/
theorem get_field_nonstring_raises (db : Database.DBState) (id name : String)
    (d : Doc) (v : Value)
    (h1 : Database.find_image db id = some d)
    (h2 : docLookup d name = some v)
    (hv : ∀ s, v ≠ Value.str s) :
    Database.get_field db id name = .error .attributeError := by
  cases v with
  | str s => exact absurd rfl (hv s)
  | num q => simp [Database.get_field, h1, h2]
  | bool b => simp [Database.get_field, h1, h2]
  | vec w => simp [Database.get_field, h1, h2]

/-- C8 (code-bug exhibit).  At the concrete remote-backed databases: the
legacy `store_field` routes an ndarray write straight through the scalar
document path (its `isinstance(..) and self._vector_db is not None` guard,
which also makes its internal `RuntimeError` unreachable, sends the vector to
`update_one`), while the current variant's `_store_vector` and
`_query_vector` fail deterministically with the unimplemented signal, writing
nothing. -/
theorem remote_vector_divergence :
    Legacy.store_field c8ldb "img1" "embedding" (.vec [1]) =
      .ok { c8ldb with
            images := [⟨"img1", [("image_path", .str "/a"), ("embedding", .vec [1])]⟩] } ∧
    Database.store_field c8rdb "img1" "embedding" (.vec [1]) =
      .error (.unimplemented, c8rdb) ∧
    Database.query_vector_field c8rdb "embedding" [1] 1 = .error .unimplemented := by
  refine ⟨rfl, ?_, rfl⟩
  rw [store_field_vec]
  rfl

/-- `assocLast` agrees with the first-match lookup when the keys are
duplicate-free. -/
theorem assocLast_eq_lookupField (fields : List (String × Value))
    (hnd : (fields.map Prod.fst).Nodup) (key : String) :
    assocLast fields key = lookupField fields key := by
  induction fields with
  | nil => rfl
  | cons kv rest ih =>
    cases kv with
    | mk k w =>
      simp only [List.map_cons, List.nodup_cons] at hnd
      obtain ⟨hk, hrest⟩ := hnd
      rw [assocLast, ih hrest, lookupField]
      by_cases hkey : k = key
      · subst hkey
        rw [lookupField_eq_none_of_not_mem rest k hk]
      · simp only [if_neg hkey]
        cases lookupField rest key <;> rfl

/-- The replay loop of `clone_row`, on fields that are all non-vector (as a
document record's stored values always are: vectors are stored as sentinel
strings), succeeds, leaves the vector store untouched, and ends with the
target document holding, for each non-reserved key, the last replayed value
for that key (and the target's old value for keys not replayed). -/
theorem cloneFields_spec (target : String) (fields : List (String × Value)) :
    ∀ (db : Database.DBState) (d : Doc),
      Database.find_image db target = some d →
      (∀ kv ∈ fields, kv.2.isVec = false) →
      ∃ db' d', Database.cloneFields db target fields = .ok db' ∧
        db'.vector = db.vector ∧
        Database.find_image db' target = some d' ∧
        ∀ key, key ≠ "_id" → key ≠ "image_path" →
          lookupField d'.fields key =
            (match assocLast fields key with
             | some w => some w
             | none => lookupField d.fields key) := by
  induction fields with
  | nil =>
    intro db d hd _
    exact ⟨db, d, rfl, rfl, hd, fun key _ _ => rfl⟩
  | cons kv rest ih =>
    intro db d hd hnv
    cases kv with
    | mk k v =>
      by_cases hres : k = "_id" ∨ k = "image_path"
      · have hcondT : (decide (k = "_id") || decide (k = "image_path")) = true := by
          rcases hres with h | h <;> simp [h]
        have hstep : Database.cloneFields db target ((k, v) :: rest) =
            Database.cloneFields db target rest := by
          simp only [Database.cloneFields, hcondT, if_true]
        obtain ⟨db', d', hc1, hc2, hc3, hc4⟩ :=
          ih db d hd (fun kv hkv => hnv kv (List.mem_cons_of_mem _ hkv))
        refine ⟨db', d', hstep ▸ hc1, hc2, hc3, ?_⟩
        intro key hk1 hk2
        have hkne : k ≠ key := by
          intro hh
          subst hh
          rcases hres with h | h
          · exact hk1 h
          · exact hk2 h
        have hcons : assocLast ((k, v) :: rest) key = assocLast rest key := by
          rw [assocLast]
          cases assocLast rest key
          · simp [hkne]
          · rfl
        rw [hc4 key hk1 hk2, hcons]
      · push_neg at hres
        obtain ⟨hr1, hr2⟩ := hres
        have hvnv : v.isVec = false := hnv (k, v) (List.mem_cons_self _ _)
        have hnone : (Database.find_image db target).isNone = false := by rw [hd]; rfl
        have hcondF : (decide (k = "_id") || decide (k = "image_path")) = false := by
          simp [hr1, hr2]
        have hstep : Database.cloneFields db target ((k, v) :: rest) =
            Database.cloneFields { db with images := updateImages db.images target k v } target rest := by
          simp only [Database.cloneFields, hcondF, Bool.false_eq_true, if_false]
          rw [store_field_scalar db target k v hvnv]
          simp only [hnone, Bool.false_eq_true, if_false]
        have hd1 : Database.find_image { db with images := updateImages db.images target k v } target = some { d with fields := setField d.fields k v } :=
          find_updateImages_found db.images target k v d hd
        obtain ⟨db', d', hc1, hc2, hc3, hc4⟩ :=
          ih { db with images := updateImages db.images target k v }
            { d with fields := setField d.fields k v } hd1
            (fun kv hkv => hnv kv (List.mem_cons_of_mem _ hkv))
        refine ⟨db', d', hstep ▸ hc1, hc2, hc3, ?_⟩
        intro key hk1 hk2
        rw [hc4 key hk1 hk2, assocLast]
        cases hal : assocLast rest key with
        | some w => rfl
        | none =>
          by_cases hkey : k = key
          · subst hkey
            simp only [if_pos rfl]
            exact lookupField_setField_self d.fields k v
          · simp only [if_neg hkey]
            exact lookupField_setField_other d.fields k key v (fun hh => hkey hh.symm)

/-- C5 counterexample.  At a concrete database whose source image has a
stored vector field `emb`, `clone_row` succeeds but only copies the sentinel
placeholder string into the target document — the vector index `db-emb` gets
no entry for `dst` — so `get_field(dst, "emb")`, which the claim says must
succeed, fails the single-embedding assertion. -/
theorem clone_row_vector_counterexample :
    ∃ db', Database.clone_row cxDb "src" "dst" = .ok db' ∧
      Database.get_field db' "dst" "emb" = .error .assertionFailed := by
  refine ⟨{ cxDb with images := [⟨"src", [("image_path", .str "/s"), ("emb", .str "IN_VECTOR_STORE:/tmp/chroma")]⟩, ⟨"dst", [("image_path", .str "/d"), ("emb", .str "IN_VECTOR_STORE:/tmp/chroma")]⟩] }, ?_, rfl⟩
  change ((match Database.store_field cxDb "dst" "emb" (.str "IN_VECTOR_STORE:/tmp/chroma") with
    | Except.error e => Except.error e
    | Except.ok db1 => Database.cloneFields db1 "dst" []) : Database.DbResult) = _
  rw [store_field_scalar cxDb "dst" "emb" (.str "IN_VECTOR_STORE:/tmp/chroma") (isVec_str _)]
  rfl

/-- C5 (amended claim theorem).  For registered source and target,
`clone_row` replays via `store_field` every source-document field except
`_id` and `image_path` with its *stored* value; since a vector field is
stored in the document only as its sentinel placeholder string, the replay
goes through the scalar path: the vector store is left completely unchanged
(no re-indexing under the target id) and the target document afterwards holds
exactly the source's stored values — sentinels included. -/
theorem clone_row_amended (db : Database.DBState) (src dst : String) (sdoc : Doc)
    (h1 : Database.find_image db src = some sdoc)
    (h2 : (Database.find_image db dst).isSome = true)
    (hnv : ∀ kv ∈ sdoc.fields, kv.2.isVec = false)
    (hnd : (sdoc.fields.map Prod.fst).Nodup) :
    ∃ db', Database.clone_row db src dst = .ok db' ∧
      db'.vector = db.vector ∧
      ∃ d', Database.find_image db' dst = some d' ∧
        ∀ key v, key ≠ "_id" → key ≠ "image_path" →
          lookupField sdoc.fields key = some v → lookupField d'.fields key = some v := by
  obtain ⟨d0, hd0⟩ := Option.isSome_iff_exists.mp h2
  have hfields : ∀ kv ∈ ("_id", Value.str sdoc.id) :: sdoc.fields, kv.2.isVec = false := by
    intro kv hkv
    rcases List.mem_cons.mp hkv with h | h
    · subst h; rfl
    · exact hnv kv h
  obtain ⟨db', d', hc1, hc2, hc3, hc4⟩ :=
    cloneFields_spec dst (("_id", .str sdoc.id) :: sdoc.fields) db d0 hd0 hfields
  refine ⟨db', ?_, hc2, d', hc3, ?_⟩
  · simp only [Database.clone_row, h1, hd0]
    exact hc1
  · intro key v hk1 hk2 hlook
    have hres := hc4 key hk1 hk2
    have hidne : "_id" ≠ key := fun hh => hk1 hh.symm
    have hcons : assocLast (("_id", Value.str sdoc.id) :: sdoc.fields) key =
        assocLast sdoc.fields key := by
      rw [assocLast]
      cases assocLast sdoc.fields key
      · simp [hidne]
      · rfl
    rw [hcons, assocLast_eq_lookupField sdoc.fields hnd key, hlook] at hres
    simpa using hres

/-- C5 amended-claim witness: the amended statement at the concrete
counterexample database. -/
theorem clone_row_amended_witness :
    ∃ db', Database.clone_row cxDb "src" "dst" = .ok db' ∧
      db'.vector = cxDb.vector ∧
      ∃ d', Database.find_image db' "dst" = some d' ∧
        ∀ key v, key ≠ "_id" → key ≠ "image_path" →
          lookupField [("image_path", Value.str "/s"), ("emb", Value.str "IN_VECTOR_STORE:/tmp/chroma")] key = some v →
          lookupField d'.fields key = some v :=
  clone_row_amended cxDb "src" "dst"
    ⟨"src", [("image_path", .str "/s"), ("emb", .str "IN_VECTOR_STORE:/tmp/chroma")]⟩
    (by decide) (by decide) (by decide) (by decide)

/-- The batch loop consumes `min k |paths|` locators, yielding equally many
ids and images and leaving the `k`-drop of the pending list. -/
theorem takeBatch_spec (env : Env) (l d : Bool) :
    ∀ (k : Nat) (db : Database.DBState) (paths : List String),
      (DataLoader.takeBatch env l d k db paths).ids.length = min k paths.length ∧
      (DataLoader.takeBatch env l d k db paths).images.length = min k paths.length ∧
      (DataLoader.takeBatch env l d k db paths).remaining = paths.drop k := by
  intro k
  induction k with
  | zero =>
    intro db paths
    simp [DataLoader.takeBatch]
  | succ k ih =>
    intro db paths
    cases paths with
    | nil => simp [DataLoader.takeBatch]
    | cons p rest =>
      have h := ih (Database.add_image db (env.realpath p) (env.realpath p)) rest
      simp only [DataLoader.takeBatch, List.length_cons, Nat.succ_min_succ,
        List.drop_succ_cons]
      exact ⟨by simp [h.1], by simp [h.2.1], by simp [h.2.2]⟩

/-- `next` on a non-first-iteration state with no pending locators and a
positive batch size raises `StopIteration`. -/
theorem next_nonfirst_nil (env : Env) (st : DataLoader)
    (h : st.isFirstIteration = false) (hB : 1 ≤ st.batchSize)
    (hp : st.imagePaths = []) :
    DataLoader.next env st = .error .stopIteration := by
  have hb : st.batchSize ≠ 0 := by omega
  simp [DataLoader.next, h, hp, hb]

/-- `next` on a non-first-iteration state with pending locators returns the
batch-loop result and the advanced state. -/
theorem next_nonfirst_cons (env : Env) (st : DataLoader)
    (h : st.isFirstIteration = false) (p : String) (rest : List String)
    (hp : st.imagePaths = p :: rest) :
    DataLoader.next env st =
      .ok ((DataLoader.takeBatch env st.loadImages st.decodeImages st.batchSize st.db st.imagePaths).ids,
        (DataLoader.takeBatch env st.loadImages st.decodeImages st.batchSize st.db st.imagePaths).images,
        { st with imagePaths := (DataLoader.takeBatch env st.loadImages st.decodeImages st.batchSize st.db st.imagePaths).remaining,
                  db := (DataLoader.takeBatch env st.loadImages st.decodeImages st.batchSize st.db st.imagePaths).db }) := by
  simp only [DataLoader.next, h, Bool.false_eq_true, if_false, hp, List.isEmpty_cons,
    Bool.and_false, Bool.false_eq_true, if_false]

theorem ceilDiv_zero_eq (B : Nat) (hB : 1 ≤ B) : ceilDiv 0 B = 0 := by
  rw [ceilDiv]
  exact Nat.div_eq_of_lt (by omega)

theorem ceilDiv_eq_zero_iff (n B : Nat) (hB : 1 ≤ B) : ceilDiv n B = 0 ↔ n = 0 := by
  constructor
  · intro h
    by_contra hn
    have h1 : B ≤ n + B - 1 := by omega
    have h2 : 1 ≤ (n + B - 1) / B := (Nat.one_le_div_iff hB).mpr h1
    rw [ceilDiv] at h
    omega
  · intro h
    subst h
    exact ceilDiv_zero_eq B hB

theorem ceilDiv_step (n B : Nat) (hB : 1 ≤ B) (hn : 1 ≤ n) :
    ceilDiv n B = ceilDiv (n - B) B + 1 := by
  rcases le_or_lt n B with h | h
  · have h0 : n - B = 0 := by omega
    rw [h0, ceilDiv_zero_eq B hB, ceilDiv]
    exact Nat.div_eq_of_lt_le (by omega) (by omega)
  · have heq : n + B - 1 = (n - B + B - 1) + B := by omega
    rw [ceilDiv, ceilDiv, heq, Nat.add_div_right _ hB]

theorem sub_mod_self_eq (n B : Nat) (h : B ≤ n) : (n - B) % B = n % B := by
  conv_rhs => rw [show n = n - B + B from by omega]
  rw [Nat.add_mod_right]

/-- Draining a non-first-iteration loader holding `n` pending locators with
batch size `B ≥ 1`: `ceil(n/B) + 1` calls to `next` yield `ceil(n/B)`
batches — every batch before the last has exactly `B` (id, image) pairs, the
last has `n mod B` (or `B` when `B` divides `n`) — and the final call raises
`StopIteration`. -/
theorem drain_spec (env : Env) :
    ∀ (n : Nat) (st : DataLoader), st.isFirstIteration = false →
      1 ≤ st.batchSize → st.imagePaths.length = n →
      (runNexts env (ceilDiv n st.batchSize + 1) st).1.length = ceilDiv n st.batchSize ∧
      (∀ b ∈ (runNexts env (ceilDiv n st.batchSize + 1) st).1.dropLast,
        b.1.length = st.batchSize ∧ b.2.length = st.batchSize) ∧
      (∀ b, (runNexts env (ceilDiv n st.batchSize + 1) st).1.getLast? = some b →
        b.1.length = (if n % st.batchSize = 0 then st.batchSize else n % st.batchSize) ∧
        b.2.length = b.1.length) ∧
      (runNexts env (ceilDiv n st.batchSize + 1) st).2 = .error .stopIteration := by
  intro n
  induction n using Nat.strong_induction_on with
  | _ n ih =>
    intro st hf hB hlen
    rcases Nat.eq_zero_or_pos n with h0 | hpos
    · subst h0
      have hnil : st.imagePaths = [] := List.length_eq_zero.mp hlen
      have hstop : DataLoader.next env st = .error .stopIteration :=
        next_nonfirst_nil env st hf hB hnil
      rw [ceilDiv_zero_eq st.batchSize hB]
      refine ⟨?_, ?_, ?_, ?_⟩ <;> simp [runNexts, hstop]
    · obtain ⟨p, rest, hp⟩ : ∃ p rest, st.imagePaths = p :: rest := by
        cases hpp : st.imagePaths with
        | nil => rw [hpp] at hlen; simp at hlen; omega
        | cons a as => exact ⟨a, as, rfl⟩
      have hnext := next_nonfirst_cons env st hf p rest hp
      obtain ⟨hids, himgs, hrem⟩ :=
        takeBatch_spec env st.loadImages st.decodeImages st.batchSize st.db st.imagePaths
      set st1 : DataLoader :=
        { st with imagePaths := (DataLoader.takeBatch env st.loadImages st.decodeImages st.batchSize st.db st.imagePaths).remaining,
                  db := (DataLoader.takeBatch env st.loadImages st.decodeImages st.batchSize st.db st.imagePaths).db } with hst1
      have hf1 : st1.isFirstIteration = false := hf
      have hB1 : 1 ≤ st1.batchSize := hB
      have hlen1 : st1.imagePaths.length = n - st.batchSize := by
        rw [hst1]
        simp only [hrem, List.length_drop, hlen]
      have hBeq : st1.batchSize = st.batchSize := rfl
      obtain ⟨ih1, ih2, ih3, ih4⟩ := ih (n - st.batchSize) (by omega) st1 hf1 hB1 hlen1
      rw [hBeq] at ih1 ih2 ih3 ih4
      have hstep := ceilDiv_step n st.batchSize hB hpos
      have hrun : runNexts env (ceilDiv (n - st.batchSize) st.batchSize + 1 + 1) st =
          (((DataLoader.takeBatch env st.loadImages st.decodeImages st.batchSize st.db st.imagePaths).ids,
            (DataLoader.takeBatch env st.loadImages st.decodeImages st.batchSize st.db st.imagePaths).images) ::
              (runNexts env (ceilDiv (n - st.batchSize) st.batchSize + 1) st1).1,
            (runNexts env (ceilDiv (n - st.batchSize) st.batchSize + 1) st1).2) := by
        simp only [runNexts, hnext]
      refine ⟨?_, ?_, ?_, ?_⟩
      · rw [hstep, hrun]
        simp only [List.length_cons, ih1]
      · rw [hstep, hrun]
        intro b hb
        rcases hr1 : (runNexts env (ceilDiv (n - st.batchSize) st.batchSize + 1) st1).1 with _ | ⟨b0, bs⟩
        · rw [hr1] at hb
          simp at hb
        · rw [hr1] at hb
          rw [List.dropLast_cons₂] at hb
          rcases List.mem_cons.mp hb with hbx | hbrest
          · have hlen0 : (b0 :: bs).length = ceilDiv (n - st.batchSize) st.batchSize := by
              rw [← hr1]
              exact ih1
            have hpos' : 1 ≤ ceilDiv (n - st.batchSize) st.batchSize := by
              rw [← hlen0]
              simp
            have hnB : st.batchSize < n := by
              have hzero := ceilDiv_eq_zero_iff (n - st.batchSize) st.batchSize hB
              omega
            subst hbx
            refine ⟨?_, ?_⟩
            · rw [hids, hlen]
              omega
            · rw [himgs, hlen]
              omega
          · exact ih2 b (by rw [hr1]; exact hbrest)
      · rw [hstep, hrun]
        intro b hb
        rcases hr1 : (runNexts env (ceilDiv (n - st.batchSize) st.batchSize + 1) st1).1 with _ | ⟨b0, bs⟩
        · rw [hr1] at hb
          simp only [List.getLast?_singleton] at hb
          have hceil0 : ceilDiv (n - st.batchSize) st.batchSize = 0 := by
            rw [← ih1, hr1]
            rfl
          have hn0 : n - st.batchSize = 0 :=
            (ceilDiv_eq_zero_iff (n - st.batchSize) st.batchSize hB).mp hceil0
          cases hb
          constructor
          · rw [hids, hlen]
            rcases Nat.lt_or_ge n st.batchSize with hlt | hge
            · rw [Nat.mod_eq_of_lt hlt, if_neg (by omega)]
              omega
            · have heq : n = st.batchSize := by omega
              rw [heq, Nat.mod_self, if_pos rfl]
              omega
          · rw [himgs, hids]
        · rw [hr1] at hb
          rw [List.getLast?_cons_cons] at hb
          have hlen0 : (b0 :: bs).length = ceilDiv (n - st.batchSize) st.batchSize := by
            rw [← hr1]
            exact ih1
          have hpos' : 1 ≤ ceilDiv (n - st.batchSize) st.batchSize := by
            rw [← hlen0]
            simp
          have hge : st.batchSize ≤ n := by
            have hzero := ceilDiv_eq_zero_iff (n - st.batchSize) st.batchSize hB
            omega
          have hres := ih3 b (by rw [hr1]; exact hb)
          rw [sub_mod_self_eq n st.batchSize hge] at hres
          exact hres
      · rw [hstep, hrun]
        exact ih4

/-- `next` on a first-iteration state behaves as on the refreshed state. -/
theorem next_refresh (env : Env) (st : DataLoader) (h : st.isFirstIteration = true) :
    DataLoader.next env st = DataLoader.next env (refreshState env st) := by
  simp [DataLoader.next, refreshState, h]

/-- `runNexts` on a first-iteration state (with at least one call) behaves as
on the refreshed state. -/
theorem runNexts_refresh (env : Env) (st : DataLoader) (h : st.isFirstIteration = true)
    (k : Nat) :
    runNexts env (k + 1) st = runNexts env (k + 1) (refreshState env st) := by
  simp only [runNexts, next_refresh env st h]

/-- C1 (claim theorem).  For every fresh loader (whose first `next()` call
re-enumerates the source to `N` locators) with batch size `B ≥ 1`, repeatedly
calling `next()` yields exactly `ceil(N/B)` batches: every batch before the
last has exactly `B` (id, image) pairs, the last batch (returned normally,
not as an error) has `N mod B` pairs (or `B` when `N mod B = 0`), and the
call after exhaustion raises `StopIteration`. -/
theorem dataLoader_batch_contract (env : Env) (st : DataLoader) (N B : Nat)
    (hfirst : st.isFirstIteration = true) (hB : 1 ≤ B) (hBs : st.batchSize = B)
    (hN : (env.listSource st.imagesPath st.isRecursive).length = N) :
    (runNexts env (ceilDiv N B + 1) st).1.length = ceilDiv N B ∧
    (∀ b ∈ (runNexts env (ceilDiv N B + 1) st).1.dropLast,
      b.1.length = B ∧ b.2.length = B) ∧
    (∀ b, (runNexts env (ceilDiv N B + 1) st).1.getLast? = some b →
      b.1.length = (if N % B = 0 then B else N % B) ∧ b.2.length = b.1.length) ∧
    (runNexts env (ceilDiv N B + 1) st).2 = .error .stopIteration := by
  subst hBs hN
  rw [runNexts_refresh env st hfirst]
  exact drain_spec env (env.listSource st.imagesPath st.isRecursive).length
    (refreshState env st) rfl hB rfl

/-- C1 witness: three locators, batch size two — two batches of sizes 2 and
1, then exhaustion. -/
theorem dataLoader_batch_contract_witness :
    (runNexts envW (ceilDiv 3 2 + 1) stW).1.length = ceilDiv 3 2 ∧
    (∀ b ∈ (runNexts envW (ceilDiv 3 2 + 1) stW).1.dropLast,
      b.1.length = 2 ∧ b.2.length = 2) ∧
    (∀ b, (runNexts envW (ceilDiv 3 2 + 1) stW).1.getLast? = some b →
      b.1.length = (if 3 % 2 = 0 then 2 else 3 % 2) ∧ b.2.length = b.1.length) ∧
    (runNexts envW (ceilDiv 3 2 + 1) stW).2 = .error .stopIteration :=
  dataLoader_batch_contract envW stW 3 2 rfl (by decide) rfl (by decide)

/-- C6 counterexample.  A loader constructed with `decode_images=False` and
`load_images=False`: its clone resets both flags to `True` (clone forwards
only the source, database and batch size), so the clone does not have the
same decode and load settings as the original. -/
theorem clone_flags_counterexample :
    st6.loadImages = false ∧ st6.decodeImages = false ∧
    (DataLoader.clone envW st6).loadImages = true ∧
    (DataLoader.clone envW st6).decodeImages = true :=
  ⟨rfl, rfl, rfl, rfl⟩

/-- C6 (amended claim theorem).  After any successful `filter` on a loader,
`clone` returns a fresh cursor over the original source path and database
with the same batch size, but with the decode, load and recursive flags reset
to their defaults (`True`); its pending list is a fresh full (recursive)
enumeration of the original source and its first-iteration flag is set — the
filtering applied to the original does not carry over. -/
theorem dataLoader_clone_amended (env : Env) (st st' : DataLoader)
    (fn : String) (fv : Option Value)
    (hf : DataLoader.filter env st fn fv = .ok st') :
    DataLoader.clone env st' =
      DataLoader.init env st.imagesPath st.db st.batchSize true true true ∧
    (DataLoader.clone env st').imagePaths = env.listSource st.imagesPath true ∧
    (DataLoader.clone env st').isFirstIteration = true := by
  rw [DataLoader.filter] at hf
  cases h : DataLoader.filterGo env st fn fv [] st.imagePaths with
  | error e =>
    rw [h] at hf
    cases hf
  | ok ps =>
    rw [h] at hf
    injection hf with hf
    subst hf
    exact ⟨rfl, rfl, rfl⟩

/-- C6 amended-claim witness: a concrete loader whose filter succeeds. -/
theorem dataLoader_clone_amended_witness :
    DataLoader.clone envA { stA with imagePaths := ["a"] } =
      DataLoader.init envA stA.imagesPath stA.db stA.batchSize true true true ∧
    (DataLoader.clone envA { stA with imagePaths := ["a"] }).imagePaths =
      envA.listSource stA.imagesPath true ∧
    (DataLoader.clone envA { stA with imagePaths := ["a"] }).isFirstIteration = true :=
  dataLoader_clone_amended envA stA { stA with imagePaths := ["a"] } "image_path" none rfl

/-- If some pending locator has no record registered under its resolved path,
the `filter` accumulation loop raises (it reaches that locator or fails even
earlier). -/
theorem filterGo_error_of_missing (env : Env) (st : DataLoader) (fn : String)
    (fv : Option Value) :
    ∀ (paths : List String), ∀ (acc : List String), ∀ p ∈ paths,
      Database.find_images_with_value st.db "image_path" (some (.str (env.realpath p))) = [] →
      ∃ e, DataLoader.filterGo env st fn fv acc paths = .error e := by
  intro paths
  induction paths with
  | nil =>
    intro acc p hp
    cases hp
  | cons q rest ih =>
    intro acc p hp hmiss
    cases hq : DataLoader.getImageFromPath env st q with
    | error e =>
      exact ⟨e, by simp only [DataLoader.filterGo, hq]⟩
    | ok d =>
      have hpq : p ≠ q := by
        intro hh
        subst hh
        rw [DataLoader.getImageFromPath] at hq
        rw [hmiss] at hq
        cases hq
      have hp' : p ∈ rest := by
        rcases List.mem_cons.mp hp with h | h
        · exact absurd h hpq
        · exact h
      cases hl : docLookup d fn with
      | none =>
        obtain ⟨e, he⟩ := ih acc p hp' hmiss
        exact ⟨e, by simp only [DataLoader.filterGo, hq, hl]; exact he⟩
      | some v =>
        cases fv with
        | none =>
          obtain ⟨e, he⟩ := ih (q :: acc) p hp' hmiss
          exact ⟨e, by simp only [DataLoader.filterGo, hq, hl]; exact he⟩
        | some fvv =>
          by_cases hv : v = fvv
          · obtain ⟨e, he⟩ := ih (q :: acc) p hp' hmiss
            exact ⟨e, by simp only [DataLoader.filterGo, hq, hl, if_pos hv]; exact he⟩
          · obtain ⟨e, he⟩ := ih acc p hp' hmiss
            exact ⟨e, by simp only [DataLoader.filterGo, hq, hl, if_neg hv]; exact he⟩

/-- If some pending locator has no record registered under its resolved path,
the id-collection comprehension of `custom_filter` raises. -/
theorem collectIds_error_of_missing (env : Env) (st : DataLoader) :
    ∀ (paths : List String), ∀ p ∈ paths,
      Database.find_images_with_value st.db "image_path" (some (.str (env.realpath p))) = [] →
      ∃ e, DataLoader.collectIds env st paths = .error e := by
  intro paths
  induction paths with
  | nil =>
    intro p hp
    cases hp
  | cons q rest ih =>
    intro p hp hmiss
    cases hq : DataLoader.getImageFromPath env st q with
    | error e =>
      exact ⟨e, by simp only [DataLoader.collectIds, hq]⟩
    | ok d =>
      have hpq : p ≠ q := by
        intro hh
        subst hh
        rw [DataLoader.getImageFromPath] at hq
        rw [hmiss] at hq
        cases hq
      have hp' : p ∈ rest := by
        rcases List.mem_cons.mp hp with h | h
        · exact absurd h hpq
        · exact h
      obtain ⟨e, he⟩ := ih p hp' hmiss
      exact ⟨e, by simp only [DataLoader.collectIds, hq, he]⟩

/-- C10 (claim theorem).  For every loader with a pending locator whose
resolved path has no registered record, both `filter` and `custom_filter`
raise instead of silently dropping the locator.  In particular — since ids
are registered only as a side effect of `next()` — filtering a freshly
constructed loader over never-iterated, never-registered images always
raises. -/
theorem loader_filter_unregistered_raises (env : Env) (st : DataLoader)
    (field_name : String) (field_value : Option Value)
    (f : Database.DBState → List String → List String) (p : String)
    (hp : p ∈ st.imagePaths)
    (hmiss : Database.find_images_with_value st.db "image_path"
      (some (.str (env.realpath p))) = []) :
    (∃ e, DataLoader.filter env st field_name field_value = .error e) ∧
    (∃ e, DataLoader.custom_filter env st f = .error e) := by
  constructor
  · obtain ⟨e, he⟩ :=
      filterGo_error_of_missing env st field_name field_value st.imagePaths [] p hp hmiss
    exact ⟨e, by simp only [DataLoader.filter, he]⟩
  · obtain ⟨e, he⟩ := collectIds_error_of_missing env st st.imagePaths p hp hmiss
    exact ⟨e, by simp only [DataLoader.custom_filter, he]⟩

/-- C10 witness: a fresh loader over the never-registered locator `"a"`. -/
theorem loader_filter_unregistered_witness :
    (∃ e, DataLoader.filter envA stNoReg "is_person" none = .error e) ∧
    (∃ e, DataLoader.custom_filter envA stNoReg (fun _ ids => ids) = .error e) :=
  loader_filter_unregistered_raises envA stNoReg "is_person" none (fun _ ids => ids)
    "a" (by decide) (by decide)

/-- C9 witness: the people detector writes `is_person = True` for `i1`, after
which reading the field back raises. -/
theorem get_field_nonstring_raises_witness :
    hogsProcess (fun _ => 1) w9db [("i1", .decoded "/i1")] = .ok w9db' ∧
    Database.get_field w9db' "i1" "is_person" = .error .attributeError :=
  ⟨by
    rw [hogsProcess]
    rw [store_field_scalar w9db "i1" "is_person" (.bool (decide (0 < 1))) (isVec_bool _)]
    rfl,
   get_field_nonstring_raises w9db' "i1" "is_person"
     ⟨"i1", [("image_path", .str "/i1"), ("is_person", .bool true)]⟩
     (.bool true) (by decide) (by decide) (fun s h => by cases h)⟩
